import Mathlib

/-!
Verification of the azpiano virtual-piano application (`src/js/index.js`)
against its natural-language specification.

The development shallowly embeds the JavaScript source:
* `Base64Decoder` (lines 30-87): the radix-64 text decoder, modelled over
  `List Char` inputs and `List Nat` byte buffers.
* `AudioPlayer` (lines 89-124): the voice manager, modelled as an
  association list from note identifier to voice, with the audio clock
  passed explicitly.
* `Keyboard` press/release bookkeeping (lines 196-217) and `Logger`
  (lines 320-414), restricted to their pure state (held-key set, token
  list); DOM rendering is elided.
* `App` key-event and visibility routing (lines 588-663), as a pure
  transition function emitting an event trace.
* `AudioAsset.loadAsync` (lines 152-183): modelled twice, once as a
  small event-loop (microtask/macrotask) machine to settle the timing
  claim, once denotationally (settled promise outcomes) for the
  error-path claim.

JavaScript idioms are translated explicitly: objects keyed by strings
become association lists (`jsLookup` / `jsSet` / `jsErase`), out-of-range
typed-array writes are discarded (`setIfLt`), `String.prototype.charAt`
past the end yields `""` whose `indexOf` is `0`, and `Uint8Array` stores
values modulo 256.
-/

/-! ## JavaScript object helpers -/

/-- `obj[k]` read on a string-keyed JS object, as an association-list
lookup (first matching key). -/
def jsLookup {α : Type} (l : List (String × α)) (k : String) : Option α :=
  (l.find? (fun e => e.1 == k)).map Prod.snd

/-- `obj[k] = v` on a string-keyed JS object: replace the value in place
if the key is present, otherwise append a new key in insertion order. -/
def jsSet {α : Type} (l : List (String × α)) (k : String) (v : α) :
    List (String × α) :=
  if l.any (fun e => e.1 == k) then
    l.map (fun e => if e.1 == k then (k, v) else e)
  else
    l ++ [(k, v)]

/-- `delete obj[k]` on a string-keyed JS object. -/
def jsErase {α : Type} (l : List (String × α)) (k : String) :
    List (String × α) :=
  l.filter (fun e => !(e.1 == k))

/-- A write `uarray[i] = v` to a `Uint8Array`: stored when `i` is in
range, silently discarded otherwise (typed-array semantics). -/
def setIfLt (buf : List Nat) (i : Nat) (v : Nat) : List Nat :=
  if i < buf.length then buf.set i v else buf

/-! ## Base64Decoder (src/js/index.js lines 30-87) -/

namespace Base64Decoder

/-- `this.keyStr` from the constructor: the 64 encoding symbols followed
by the padding symbol `=` (65 symbols in total). -/
def keyStr : String :=
  "ABCDEFGHIJKLMNOPQRSTUVWXYZabcdefghijklmnopqrstuvwxyz0123456789+/="

/-- Membership in the character class `[A-Za-z0-9+/=]` of the cleanup
regular expression in `decode`. -/
def isAlphabetChar (c : Char) : Bool :=
  ('A' ≤ c && c ≤ 'Z') || ('a' ≤ c && c ≤ 'z') ||
    ('0' ≤ c && c ≤ '9') || c == '+' || c == '/' || c == '='

/-- `input.replace(/[^A-Za-z0-9+/=]/g, "")`: drop every character that is
not one of the 65 alphabet symbols. -/
def stripInvalid (s : List Char) : List Char :=
  s.filter isAlphabetChar

/-- `removePaddingChars` (lines 36-44): scan from the end for the first
character that is not `=` and keep the prefix up to and including it.
If the loop finds no such character (the string is empty, or - despite
the source comment claiming otherwise - consists entirely of `=`), the
input is returned unchanged. -/
def removePaddingChars (s : List Char) : List Char :=
  if s.all (fun c => c == '=') then s
  else (s.reverse.dropWhile (fun c => c == '=')).reverse

/-- `this.keyStr.indexOf(input.charAt(j))`.  For `j` past the end of the
string, `charAt` returns `""` and `indexOf("")` is `0`.  In `decode` this
is only ever applied to characters of the stripped input, which all occur
in `keyStr`, so `indexOf` returns their index (never `-1`). -/
def encAt (s : List Char) (j : Nat) : Nat :=
  match s.get? j with
  | some c => List.findIdx (fun x => x == c) keyStr.toList
  | none => 0

/-- `chr1 = (enc1 << 2) | (enc2 >> 4)` for group `g` (symbols
`4g..4g+3`), reduced mod 256 by the `Uint8Array` store. -/
def chrVal1 (s : List Char) (g : Nat) : Nat :=
  (((encAt s (4 * g)) <<< 2) ||| ((encAt s (4 * g + 1)) >>> 4)) % 256

/-- `chr2 = ((enc2 & 15) << 4) | (enc3 >> 2)` for group `g`, mod 256. -/
def chrVal2 (s : List Char) (g : Nat) : Nat :=
  ((((encAt s (4 * g + 1)) &&& 15) <<< 4) |||
    ((encAt s (4 * g + 2)) >>> 2)) % 256

/-- `chr3 = ((enc3 & 3) << 6) | enc4` for group `g`, mod 256. -/
def chrVal3 (s : List Char) (g : Nat) : Nat :=
  ((((encAt s (4 * g + 2)) &&& 3) <<< 6) ||| (encAt s (4 * g + 3))) % 256

/-- One iteration of the decode loop body (lines 57-74) for group `g`:
write `chr1` at `3g`, write `chr2` at `3g+1` unless `enc3` is the padding
index 64, write `chr3` at `3g+2` unless `enc4` is 64.  Out-of-range
writes are discarded by the typed array. -/
def writeGroup (s : List Char) (g : Nat) (buf : List Nat) : List Nat :=
  let buf1 := setIfLt buf (3 * g) (chrVal1 s g)
  let buf2 := if encAt s (4 * g + 2) != 64 then
      setIfLt buf1 (3 * g + 1) (chrVal2 s g)
    else buf1
  if encAt s (4 * g + 3) != 64 then
    setIfLt buf2 (3 * g + 2) (chrVal3 s g)
  else buf2

/-- The decode loop `for (let i = 0; i < bytes; i += 3)` with
`bytes = input.length / 4 * 3` (an exact, possibly fractional, number in
JS).  With `i = 3g` the guard `3g < 3·len/4` is `4g < len`.  `fuel`
bounds the recursion; `decode` supplies `s.length`, which dominates the
`⌈len/4⌉` iterations the guard allows. -/
def decodeLoop (s : List Char) : Nat → Nat → List Nat → List Nat
  | 0, _, buf => buf
  | fuel + 1, g, buf =>
    if 4 * g < s.length then
      decodeLoop s fuel (g + 1) (writeGroup s g buf)
    else buf

/-- `decode` (lines 46-77): strip characters outside the alphabet, trim
trailing padding, allocate a `Uint8Array` of `⌊len/4·3⌋` bytes
(`new ArrayBuffer` truncates the fractional byte count), and run the
group loop over it. -/
def decode (input : List Char) : List Nat :=
  let s := removePaddingChars (stripInvalid input)
  decodeLoop s s.length 0 (List.replicate (3 * s.length / 4) 0)

/-- The string the decode loop actually runs over: the input after both
cleanup steps (non-alphabet strip, then trailing-padding removal). -/
def cleanedInput (input : List Char) : List Char :=
  removePaddingChars (stripInvalid input)

/-- Number of trailing padding symbols of a string. -/
def trailingPads (s : List Char) : Nat :=
  (s.reverse.takeWhile (fun c => c == '=')).length

end Base64Decoder

/-! ## Bank entries, AudioPlayer (src/js/index.js lines 89-124) -/

/-- A value of the sample bank `notesBuffers.json`: initially the fetched
encoded text (`str`), replaced by the decoded audio buffer (`buf`) once
`decodeAudioData` resolves.  The external `AudioContext.decodeAudioData`
is modelled as wrapping the binary data unchanged. -/
inductive Entry : Type
  | str (s : List Char)
  | buf (b : List Nat)
deriving DecidableEq

/-- One sounding voice: the `AudioBufferSourceNode` created by `play`,
retaining the buffer it was bound to (`undefined` is possible when the
bank has no entry for the note) and the audio-clock time `start` was
called with. -/
structure Voice : Type where
  buffer : Option Entry
  started : Rat
deriving DecidableEq

/-- The `AudioPlayer` state: the `sources` object keyed by note
identifier, and the configured `stopDelay`.  The audio context, gain node
and DOM wiring of the constructor are external collaborators; the current
audio-clock time is passed to each operation explicitly. -/
structure AudioPlayer : Type where
  sources : List (String × Voice)
  stopDelay : Rat
deriving DecidableEq

/-- `opts.stopDelay || 0.3` (line 97): JavaScript `||` falls back to the
default when the option is absent or `0` (falsy). -/
def jsOrDefault (v : Option Rat) (d : Rat) : Rat :=
  match v with
  | none => d
  | some x => if x = 0 then d else x

/-- The `AudioPlayer` constructor (lines 90-99): empty `sources`,
`stopDelay` defaulting to `0.3`. -/
def AudioPlayer.init (optsStopDelay : Option Rat) : AudioPlayer :=
  { sources := [], stopDelay := jsOrDefault optsStopDelay (3 / 10) }

/-- `play(id, buffer)` (lines 101-109) at audio-clock time `t`: a no-op
if a source already exists for `id`; otherwise create a source bound to
`buffer`, start it at `context.currentTime`, and record it. -/
def AudioPlayer.play (t : Rat) (id : String) (b : Option Entry)
    (p : AudioPlayer) : AudioPlayer :=
  if (jsLookup p.sources id).isSome then p
  else { p with sources := jsSet p.sources id { buffer := b, started := t } }

/-- `pause(id)` (lines 111-117) at audio-clock time `t`: a no-op (no
scheduled stop) if no source exists for `id`; otherwise schedule
`source.stop(currentTime + stopDelay)` - returned as the second
component - and delete the source immediately. -/
def AudioPlayer.pause (t : Rat) (id : String) (p : AudioPlayer) :
    AudioPlayer × Option Rat :=
  match jsLookup p.sources id with
  | none => (p, none)
  | some _ =>
    ({ p with sources := jsErase p.sources id }, some (t + p.stopDelay))

/-- `pauseAll()` (lines 119-123): `pause` every id of `sources`,
accumulating the scheduled stop times. -/
def AudioPlayer.pauseAll (t : Rat) (p : AudioPlayer) :
    AudioPlayer × List (String × Rat) :=
  (p.sources.map Prod.fst).foldl
    (fun acc id =>
      let r := AudioPlayer.pause t id acc.1
      (r.1, acc.2 ++ (match r.2 with
        | some τ => [(id, τ)]
        | none => [])))
    (p, [])

/-- A player operation, for reasoning about arbitrary call sequences.
`play` carries the clock time, note id and buffer; `pause` and `pauseAll`
carry the clock time. -/
inductive POp : Type
  | play (t : Rat) (id : String) (b : Option Entry)
  | pause (t : Rat) (id : String)
  | pauseAll (t : Rat)

/-- Apply one player operation (discarding the scheduled-stop data). -/
def applyPOp (p : AudioPlayer) : POp → AudioPlayer
  | .play t id b => AudioPlayer.play t id b p
  | .pause t id => (AudioPlayer.pause t id p).1
  | .pauseAll t => (AudioPlayer.pauseAll t p).1

/-- Run a sequence of player operations from a freshly constructed
player. -/
def runPOps (ops : List POp) : AudioPlayer :=
  ops.foldl applyPOp (AudioPlayer.init none)

/-! ## Keyboard held-key state (src/js/index.js lines 196-217) -/

namespace Keyboard

/-- `press(code)` (lines 196-202) restricted to the `this._` bookkeeping:
a no-op if the code is already held, otherwise mark it held.  The
`classList` manipulation is DOM-only and elided. -/
def press (held : List String) (code : String) : List String :=
  if held.contains code then held else held ++ [code]

/-- `release(code)` (lines 204-211): a no-op if the code is not held
(`this._[code] == null || !this._[code]`), otherwise remove it. -/
def release (held : List String) (code : String) : List String :=
  if held.contains code then held.filter (fun c => !(c == code)) else held

/-- `releaseAll()` (lines 213-217): `release` every held code. -/
def releaseAll (held : List String) : List String :=
  held.foldl release held

end Keyboard

/-! ## Logger (src/js/index.js lines 320-414) -/

/-- The logger's pure state: the enabled switch and the token array
`this._`.  Textarea rendering, clipboard export and the localStorage
import/export surface are elided. -/
structure Logger : Type where
  enabled : Bool
  tokens : List String
deriving DecidableEq

/-- `insert(text)` (lines 393-398): push the token when enabled.  The
second component reports whether a token was actually appended. -/
def Logger.insert (text : String) (lg : Logger) : Logger × Bool :=
  if lg.enabled then ({ lg with tokens := lg.tokens ++ [text] }, true)
  else (lg, false)

/-- `space()` (lines 365-370): push `" "` when enabled. -/
def Logger.space (lg : Logger) : Logger :=
  if lg.enabled then { lg with tokens := lg.tokens ++ [" "] } else lg

/-- `return()` (lines 372-377; `return` is a Lean keyword, hence `ret`):
push a newline token when enabled. -/
def Logger.ret (lg : Logger) : Logger :=
  if lg.enabled then { lg with tokens := lg.tokens ++ ["\n"] } else lg

/-- `delete()` (lines 379-384): pop the last token when enabled. -/
def Logger.delete (lg : Logger) : Logger :=
  if lg.enabled then { lg with tokens := lg.tokens.dropLast } else lg

/-- `clear()` (lines 386-391): empty the token array when enabled. -/
def Logger.clear (lg : Logger) : Logger :=
  if lg.enabled then { lg with tokens := [] } else lg

/-! ## App key-event and visibility routing (src/js/index.js 510-698) -/

/-- The instrument states `App.WAITING = 1`, `App.LOADING = 2`,
`App.RUNNING = 3` (lines 696-698). -/
inductive Mode : Type
  | waiting
  | loading
  | running
deriving DecidableEq

/-- The pure state the key-event routing of `App` reads and writes:
the instrument state, the keyboard held-key set, the audio player, the
logger, the key-code-to-note mapping `codesNotes`, and the sample bank
`notesBuffers.json`. -/
structure AppState : Type where
  mode : Mode
  held : List String
  player : AudioPlayer
  logger : Logger
  codesNotes : List (String × String)
  bank : List (String × Entry)
deriving DecidableEq

/-- Read-only configuration consumed by `onKeyDown`: the display token
chosen for a note (`notesDigits.json[note]` or
`notesLily.json[output][note]`, depending on `settings.params.output`). -/
structure AppCfg : Type where
  noteTok : String → String

/-- Observable actions of one key-event transaction, in program order. -/
inductive Ev : Type
  | startTriggered
  | logAppend (tok : String)
  | play (note : String)
  | pause (note : String)
deriving DecidableEq

/-- Is this event a log append? -/
def Ev.isLogAppend : Ev → Bool
  | .logAppend _ => true
  | _ => false

/-- `onKeyDown` (lines 600-646) at audio-clock time `t`.  In `WAITING`
the event doubles as the start gesture (`start()` creates the player and
moves to `LOADING`; the asynchronous load it begins is modelled
separately).  In `RUNNING`, the three arrow keys drive logger operations
before the auto-repeat / unmapped-code filter; a mapped, non-repeat code
presses the key, appends a log token (when the logger is enabled),
persists the log (elided) and starts the voice with the bank entry. -/
def App.onKeyDown (cfg : AppCfg) (t : Rat) (code : String) (rpt : Bool)
    (st : AppState) : AppState × List Ev :=
  if st.mode = .waiting then
    ({ st with mode := .loading, player := AudioPlayer.init none },
      [.startTriggered])
  else if st.mode ≠ .running then (st, [])
  else if code = "ArrowRight" then
    ({ st with logger := st.logger.space }, [])
  else if code = "ArrowDown" then
    ({ st with logger := st.logger.ret }, [])
  else if code = "ArrowLeft" then
    ({ st with logger := st.logger.delete }, [])
  else if rpt then (st, [])
  else
    match jsLookup st.codesNotes code with
    | none => (st, [])
    | some note =>
      let held' := Keyboard.press st.held code
      let ins := st.logger.insert (cfg.noteTok note)
      let p' := AudioPlayer.play t note (jsLookup st.bank note) st.player
      ({ st with held := held', logger := ins.1, player := p' },
        (if ins.2 then [Ev.logAppend (cfg.noteTok note)] else []) ++
          [Ev.play note])

/-- `onKeyUp` (lines 648-663) at audio-clock time `t`: only meaningful in
`RUNNING`; filtered by the same auto-repeat / unmapped-code condition;
otherwise releases the key and pauses the note's voice. -/
def App.onKeyUp (t : Rat) (code : String) (rpt : Bool) (st : AppState) :
    AppState × List Ev :=
  if st.mode ≠ .running then (st, [])
  else if rpt then (st, [])
  else
    match jsLookup st.codesNotes code with
    | none => (st, [])
    | some note =>
      ({ st with
          held := Keyboard.release st.held code,
          player := (AudioPlayer.pause t note st.player).1 },
        [.pause note])

/-- `onVisibilityChange` (lines 588-598) at audio-clock time `t`: a no-op
unless the state is `RUNNING` and the document is not visible, in which
case every voice is paused (the scheduled stops are returned) and every
held key released. -/
def App.onVisibilityChange (t : Rat) (visible : Bool) (st : AppState) :
    AppState × List (String × Rat) :=
  if st.mode ≠ .running then (st, [])
  else if visible then (st, [])
  else
    let r := AudioPlayer.pauseAll t st.player
    ({ st with player := r.1, held := Keyboard.releaseAll st.held }, r.2)

/-! ## AudioAsset.loadAsync, event-loop model (src/js/index.js 152-183)

The success path of `AudioAsset.loadAsync` runs, inside the `then`
callback of the manifest fetch, the loop (lines 159-169):

  for every key `k` of the manifest, in order:
    - `decoder.decodeAsync(this.json[k].substring(OGG_HEADER_LENGTH))`
      creates a promise and calls `window.setTimeout(..., 0)`, i.e.
      enqueues a MACROtask that performs the synchronous radix-64 decode;
      its `.then(player.decodeAudioData).then(assign)` chain runs as
      MICROtasks once that macrotask resolves the promise;
    - `promises.push(this.json[k])` pushes the CURRENT value of the bank
      entry - the encoded string - not the promise chain;
  then `return Promise.all(promises)`.

`Promise.all` over non-thenable values settles via the microtask queue,
and the host drains all pending microtasks before running any macrotask,
so the outer `.then` (which fires `onLoad`, i.e. resolves the load) runs
strictly before any `setTimeout` decode callback.  The machine below
models exactly this scheduling: a microtask queue, a macrotask queue, and
the bank object. -/

/-- `"data:audio/ogg;base64,".length` (line 3). -/
def OGG_HEADER_LENGTH : Nat := "data:audio/ogg;base64,".toList.length

/-- Pending scheduled work of the load pipeline. -/
inductive LTask : Type
  | resolveAll
  | decodeText (k : String) (payload : List Char)
  | decodeAudio (k : String) (bin : List Nat)
  | assign (k : String) (bin : List Nat)
deriving DecidableEq

/-- Observable events of the load pipeline.  `loadResolved` records how
many bank entries are still encoded strings at the moment the aggregate
load promise resolves (i.e. when `onLoad` fires). -/
inductive LEv : Type
  | loadResolved (stillEncoded : Nat)
  | assigned (k : String)
deriving DecidableEq

/-- The event-loop state of one `AudioAsset.loadAsync` run after the
manifest fetch has delivered `json`. -/
structure LoadState : Type where
  json : List (String × Entry)
  microQ : List LTask
  macroQ : List LTask
  loadResolved : Bool
  trace : List LEv
deriving DecidableEq

/-- Number of bank entries still holding encoded text. -/
def countStr (l : List (String × Entry)) : Nat :=
  (l.filter (fun e => match e.2 with
    | .str _ => true
    | .buf _ => false)).length

/-- The state right after the fetch `then` callback of
`AudioAsset.loadAsync` returns: every entry still encoded, one
`setTimeout` decode macrotask per entry (in manifest order), and the
`Promise.all`-of-strings resolution (which triggers `onLoad`) pending as
a microtask. -/
def initLoad (manifest : List (String × List Char)) : LoadState :=
  { json := manifest.map (fun e => (e.1, Entry.str e.2))
    microQ := [.resolveAll]
    macroQ := manifest.map
      (fun e => LTask.decodeText e.1 (e.2.drop OGG_HEADER_LENGTH))
    loadResolved := false
    trace := [] }

/-- Run one scheduled task.  `resolveAll` settles the aggregate promise
and fires `onLoad`; `decodeText` is the `setTimeout` callback performing
`decoder.decode`, resolving the inner promise, whose `then` reaction
(`player.decodeAudioData`) becomes a microtask; `decodeAudio` is that
external hardware decode, modelled as wrapping the bytes, whose `then`
reaction becomes the `assign` microtask; `assign` stores the decoded
buffer into the bank entry. -/
def runLTask (st : LoadState) : LTask → LoadState
  | .resolveAll =>
    { st with loadResolved := true
              trace := st.trace ++ [.loadResolved (countStr st.json)] }
  | .decodeText k payload =>
    { st with microQ := st.microQ ++ [.decodeAudio k (Base64Decoder.decode payload)] }
  | .decodeAudio k bin =>
    { st with microQ := st.microQ ++ [.assign k bin] }
  | .assign k bin =>
    { st with json := jsSet st.json k (Entry.buf bin)
              trace := st.trace ++ [.assigned k] }

/-- One event-loop step: drain the microtask queue before touching the
macrotask queue. -/
def stepLoad (st : LoadState) : LoadState :=
  match st.microQ with
  | t :: rest => runLTask { st with microQ := rest } t
  | [] =>
    match st.macroQ with
    | t :: rest => runLTask { st with macroQ := rest } t
    | [] => st

/-- Run `n` event-loop steps. -/
def runLoad : Nat → LoadState → LoadState
  | 0, st => st
  | n + 1, st => runLoad n (stepLoad st)

/-! ## JSONAsset / AudioAsset settled outcomes, App.start
(src/js/index.js 7-16, 126-183, 559-586, 674-688) -/

/-- Outcome of one `window.fetch` of a manifest path. -/
inductive FetchOutcome : Type
  | ok (json : List (String × List Char))
  | httpError (status : Nat)
  | transport (msg : String)
deriving DecidableEq

/-- `fetchJSON` (lines 7-16): a non-success HTTP status is turned into a
rejection with a descriptive error; transport errors reject as-is. -/
def fetchJSON : FetchOutcome → Except String (List (String × List Char))
  | .ok j => .ok j
  | .httpError status => .error ("Unexpected HTTP status code " ++ toString status)
  | .transport msg => .error msg

/-- The settled result of an asset's `loadAsync` call: the recorded
`this.error`, which of the `onLoad` / `onError` callbacks fired, and
whether the promise `loadAsync` returned ended up rejected. -/
structure AssetLoadResult : Type where
  error : Option String
  onLoadCalled : Bool
  onErrorCalled : Bool
  promiseRejected : Bool
deriving DecidableEq

/-- Settled outcome of `AudioAsset.loadAsync` (lines 152-183) as a
function of the fetch outcome.  On fetch success the `then` chain runs to
`onLoad` (nothing in `promises` can reject - see the event-loop model);
on fetch failure the trailing `.catch` records the error and calls
`onError`, and - because a handled rejection fulfills the chained
promise - the promise `loadAsync` returned is FULFILLED, not rejected.
`JSONAsset.loadAsync` (lines 133-149) has the same catch structure and
the same settled outcome. -/
def AudioAsset.loadAsync (f : FetchOutcome) : AssetLoadResult :=
  match fetchJSON f with
  | .ok _ =>
    { error := none, onLoadCalled := true, onErrorCalled := false
      promiseRejected := false }
  | .error e =>
    { error := some e, onLoadCalled := false, onErrorCalled := true
      promiseRejected := false }

/-- `App.start` (lines 674-688) composed with `loadAssetsAsync`
(lines 559-586): the state is set to `LOADING`, `Promise.all` is taken
over the `loadAsync` promises of the audio asset and the JSON assets,
and its `then` callback sets the state to `RUNNING`.  `Promise.all`
rejects only if some component promise rejects, in which case the `then`
callback never runs and the state stays `LOADING`. -/
def App.startFinalMode (audioFetch : FetchOutcome)
    (otherFetches : List FetchOutcome) : Mode :=
  if (AudioAsset.loadAsync audioFetch).promiseRejected ∨
      (otherFetches.map AudioAsset.loadAsync).any
        (fun r => r.promiseRejected) then
    .loading
  else .running

/-! ## Group-structure characterization of `decode` (for claim C6) -/

namespace Base64Decoder

/-- Whether the decode loop writes output position `i`: position `3g`
(the group's 1st byte) always, `3g+1` (2nd byte) only when the group's
3rd symbol is not the padding index 64, `3g+2` (3rd byte) only when the
group's 4th symbol is not 64. -/
def writtenAt (s : List Char) (i : Nat) : Bool :=
  i % 3 == 0 ||
    (i % 3 == 1 && (encAt s (4 * (i / 3) + 2) != 64)) ||
    (i % 3 == 2 && (encAt s (4 * (i / 3) + 3) != 64))

/-- The value the decode loop writes at position `i` (of group `i / 3`),
when it writes it. -/
def byteVal (s : List Char) (i : Nat) : Nat :=
  if i % 3 == 0 then chrVal1 s (i / 3)
  else if i % 3 == 1 then chrVal2 s (i / 3)
  else chrVal3 s (i / 3)

/-- Group-wise description of output byte `i`: the written value when
position `i` is written, `0` (the `ArrayBuffer` initial value)
otherwise. -/
def specByte (s : List Char) (i : Nat) : Nat :=
  if writtenAt s i then byteVal s i else 0

/-- Modelled from claim C6's words (not from the source): decoding
"first removes every character outside the 65-symbol alphabet from the
input, then processes the cleaned input in groups of 4 symbols producing
up to 3 bytes per group, where a group's 3rd output byte is emitted only
if its 3rd input symbol is not the padding symbol" (a group has no 4th
output byte, so the claim's condition on it is vacuous).  No trailing
padding is removed before grouping, the first two bytes of a group are
unconditional, and the emitted bytes are concatenated. -/
def claimGroupBytes (s : List Char) (g : Nat) : List Nat :=
  [chrVal1 s g, chrVal2 s g] ++
    (if encAt s (4 * g + 2) != 64 then [chrVal3 s g] else [])

/-- Modelled from claim C6's words (not from the source): the decode
operation as the claim describes it.  Compared against `decode` for the
refinement verdict. -/
def decodeClaimC6 (input : List Char) : List Nat :=
  let s := stripInvalid input
  (List.range (s.length / 4)).flatMap (claimGroupBytes s)

end Base64Decoder

/-! ## Helper lemmas: buffer writes -/

theorem length_setIfLt (buf : List Nat) (i v : Nat) :
    (setIfLt buf i v).length = buf.length := by
  unfold setIfLt
  split <;> simp

theorem getD_set (l : List Nat) : ∀ (j i v : Nat),
    (l.set j v).getD i 0 = if j = i ∧ j < l.length then v else l.getD i 0 := by
  induction l with
  | nil => intro j i v; simp
  | cons a t ih =>
    intro j i v
    cases j with
    | zero =>
      cases i with
      | zero => simp
      | succ i' => simp
    | succ j' =>
      cases i with
      | zero => simp
      | succ i' =>
        simp only [List.set_cons_succ, List.getD_cons_succ, ih j' i' v,
          List.length_cons]
        by_cases h : j' = i' ∧ j' < t.length
        · rw [if_pos h, if_pos (by omega)]
        · rw [if_neg h, if_neg (by omega)]

theorem getD_setIfLt (buf : List Nat) (j i v : Nat) :
    (setIfLt buf j v).getD i 0 =
      if j = i ∧ j < buf.length then v else buf.getD i 0 := by
  unfold setIfLt
  by_cases h : j < buf.length
  · rw [if_pos h, getD_set]
  · rw [if_neg h, if_neg (by omega)]

/-! ## Helper lemmas: the decode loop -/

namespace Base64Decoder

theorem writeGroup_length (s : List Char) (g : Nat) (buf : List Nat) :
    (writeGroup s g buf).length = buf.length := by
  unfold writeGroup
  split <;> split <;> simp [length_setIfLt]

theorem getD_setIfLt_ne (buf : List Nat) (j i v : Nat) (h : j ≠ i) :
    (setIfLt buf j v).getD i 0 = buf.getD i 0 := by
  rw [getD_setIfLt, if_neg (by tauto)]

theorem writeGroup_getD (s : List Char) (g : Nat) (buf : List Nat)
    (i : Nat) :
    (writeGroup s g buf).getD i 0 =
      if 3 * g ≤ i ∧ i < 3 * g + 3 ∧ i < buf.length ∧ writtenAt s i = true
      then byteVal s i else buf.getD i 0 := by
  have hcase : i < 3 * g ∨ i = 3 * g ∨ i = 3 * g + 1 ∨ i = 3 * g + 2 ∨
      3 * g + 3 ≤ i := by omega
  simp only [writeGroup]
  rcases hcase with hc | hc | hc | hc | hc
  · split <;> split <;>
      (try rw [getD_setIfLt_ne _ _ _ _ (by omega : 3 * g + 2 ≠ i)]) <;>
      (try rw [getD_setIfLt_ne _ _ _ _ (by omega : 3 * g + 1 ≠ i)]) <;>
      rw [getD_setIfLt_ne _ _ _ _ (by omega : 3 * g ≠ i),
        if_neg (by omega)]
  · have h0 : i % 3 = 0 := by omega
    have hdiv : i / 3 = g := by omega
    have hw : writtenAt s i = true := by
      simp [writtenAt, h0]
    have hb : byteVal s i = chrVal1 s g := by
      simp [byteVal, h0, hdiv]
    split <;> split <;>
      (try rw [getD_setIfLt_ne _ _ _ _ (by omega : 3 * g + 2 ≠ i)]) <;>
      (try rw [getD_setIfLt_ne _ _ _ _ (by omega : 3 * g + 1 ≠ i)]) <;>
      rw [getD_setIfLt, hb] <;>
      (first
        | (by_cases hl : i < buf.length
           · rw [if_pos (by omega),
               if_pos (show _ ∧ _ ∧ _ ∧ _ from ⟨by omega, by omega, hl, hw⟩)]
           · rw [if_neg (by omega), if_neg (by omega)]))
  · have h1 : i % 3 = 1 := by omega
    have hdiv : i / 3 = g := by omega
    have hb : byteVal s i = chrVal2 s g := by
      simp [byteVal, h1, hdiv]
    have hw : writtenAt s i = (encAt s (4 * g + 2) != 64) := by
      simp [writtenAt, h1, hdiv]
    split <;> rename_i h4 <;> split <;> rename_i h3 <;>
      (try rw [getD_setIfLt_ne _ _ _ _ (by omega : 3 * g + 2 ≠ i)])
    · rw [getD_setIfLt, length_setIfLt,
        getD_setIfLt_ne _ _ _ _ (by omega : 3 * g ≠ i), hb]
      by_cases hl : i < buf.length
      · rw [if_pos (by omega),
          if_pos (show _ ∧ _ ∧ _ ∧ _ from ⟨by omega, by omega, hl, by rw [hw, h3]⟩)]
      · rw [if_neg (by omega), if_neg (by omega)]
    · rw [getD_setIfLt_ne _ _ _ _ (by omega : 3 * g ≠ i),
        if_neg (fun hcon => by rw [hw] at hcon; exact h3 hcon.2.2.2)]
    · rw [getD_setIfLt, length_setIfLt,
        getD_setIfLt_ne _ _ _ _ (by omega : 3 * g ≠ i), hb]
      by_cases hl : i < buf.length
      · rw [if_pos (by omega),
          if_pos (show _ ∧ _ ∧ _ ∧ _ from ⟨by omega, by omega, hl, by rw [hw, h3]⟩)]
      · rw [if_neg (by omega), if_neg (by omega)]
    · rw [getD_setIfLt_ne _ _ _ _ (by omega : 3 * g ≠ i),
        if_neg (fun hcon => by rw [hw] at hcon; exact h3 hcon.2.2.2)]
  · have h2 : i % 3 = 2 := by omega
    have hdiv : i / 3 = g := by omega
    have hb : byteVal s i = chrVal3 s g := by
      simp [byteVal, h2, hdiv]
    have hw : writtenAt s i = (encAt s (4 * g + 3) != 64) := by
      simp [writtenAt, h2, hdiv]
    split <;> rename_i h4 <;> split <;> rename_i h3
    · rw [getD_setIfLt, length_setIfLt, length_setIfLt,
        getD_setIfLt_ne _ _ _ _ (by omega : 3 * g + 1 ≠ i),
        getD_setIfLt_ne _ _ _ _ (by omega : 3 * g ≠ i), hb]
      by_cases hl : i < buf.length
      · rw [if_pos (by omega),
          if_pos (show _ ∧ _ ∧ _ ∧ _ from ⟨by omega, by omega, hl, by rw [hw, h4]⟩)]
      · rw [if_neg (by omega), if_neg (by omega)]
    · rw [getD_setIfLt, length_setIfLt,
        getD_setIfLt_ne _ _ _ _ (by omega : 3 * g ≠ i), hb]
      by_cases hl : i < buf.length
      · rw [if_pos (by omega),
          if_pos (show _ ∧ _ ∧ _ ∧ _ from ⟨by omega, by omega, hl, by rw [hw, h4]⟩)]
      · rw [if_neg (by omega), if_neg (by omega)]
    · rw [getD_setIfLt_ne _ _ _ _ (by omega : 3 * g + 1 ≠ i),
        getD_setIfLt_ne _ _ _ _ (by omega : 3 * g ≠ i),
        if_neg (fun hcon => by rw [hw] at hcon; exact h4 hcon.2.2.2)]
    · rw [getD_setIfLt_ne _ _ _ _ (by omega : 3 * g ≠ i),
        if_neg (fun hcon => by rw [hw] at hcon; exact h4 hcon.2.2.2)]
  · split <;> split <;>
      (try rw [getD_setIfLt_ne _ _ _ _ (by omega : 3 * g + 2 ≠ i)]) <;>
      (try rw [getD_setIfLt_ne _ _ _ _ (by omega : 3 * g + 1 ≠ i)]) <;>
      rw [getD_setIfLt_ne _ _ _ _ (by omega : 3 * g ≠ i),
        if_neg (by omega)]

end Base64Decoder

namespace Base64Decoder

theorem decodeLoop_length (s : List Char) :
    ∀ (fuel g : Nat) (buf : List Nat),
    (decodeLoop s fuel g buf).length = buf.length := by
  intro fuel
  induction fuel with
  | zero => intro g buf; rfl
  | succ n ih =>
    intro g buf
    rw [decodeLoop]
    split
    · rw [ih, writeGroup_length]
    · rfl

/-- Every position of the final buffer that lies in a group the loop
reached holds its group's written value; every other position keeps the
initial buffer's value. -/
theorem decodeLoop_getD (s : List Char) :
    ∀ (fuel g : Nat) (buf : List Nat), s.length ≤ 4 * (g + fuel) →
    ∀ i : Nat,
    (decodeLoop s fuel g buf).getD i 0 =
      if 3 * g ≤ i ∧ i < buf.length ∧ 4 * (i / 3) < s.length ∧
          writtenAt s i = true
      then byteVal s i else buf.getD i 0 := by
  intro fuel
  induction fuel with
  | zero =>
    intro g buf hfuel i
    rw [decodeLoop, if_neg]
    rintro ⟨h1, h2, h3, h4⟩
    omega
  | succ n ih =>
    intro g buf hfuel i
    rw [decodeLoop]
    by_cases hg : 4 * g < s.length
    · rw [if_pos hg, ih (g + 1) (writeGroup s g buf) (by omega) i,
        writeGroup_length, writeGroup_getD]
      by_cases hup : 3 * (g + 1) ≤ i ∧ i < buf.length ∧
          4 * (i / 3) < s.length ∧ writtenAt s i = true
      · rw [if_pos hup, if_pos (by exact ⟨by omega, hup.2.1, hup.2.2.1, hup.2.2.2⟩)]
      · rw [if_neg hup]
        by_cases hmid : 3 * g ≤ i ∧ i < 3 * g + 3 ∧ i < buf.length ∧
            writtenAt s i = true
        · rw [if_pos hmid,
            if_pos (by
              refine ⟨hmid.1, hmid.2.2.1, ?_, hmid.2.2.2⟩
              have : i / 3 = g := by omega
              omega)]
        · rw [if_neg hmid, if_neg]
          rintro ⟨h1, h2, h3, h4⟩
          by_cases hlt : i < 3 * g + 3
          · exact hmid ⟨h1, hlt, h2, h4⟩
          · exact hup ⟨by omega, h2, h3, h4⟩
    · rw [if_neg hg, if_neg]
      rintro ⟨h1, h2, h3, h4⟩
      omega

theorem decode_length (input : List Char) :
    (decode input).length = 3 * (cleanedInput input).length / 4 := by
  rw [decode, cleanedInput, decodeLoop_length, List.length_replicate]

end Base64Decoder

/-! ## Helper lemmas: list extensionality via getD, padding lengths -/

theorem ext_getD : ∀ (l1 l2 : List Nat), l1.length = l2.length →
    (∀ i : Nat, i < l1.length → l1.getD i 0 = l2.getD i 0) → l1 = l2 := by
  intro l1
  induction l1 with
  | nil =>
    intro l2 hlen _
    cases l2 with
    | nil => rfl
    | cons b t => simp at hlen
  | cons a t ih =>
    intro l2 hlen h
    cases l2 with
    | nil => simp at hlen
    | cons b t2 =>
      have h0 := h 0 (by simp)
      simp only [List.getD_cons_zero] at h0
      rw [h0, ih t2 (by simpa using hlen)
        (fun i hi => by simpa using h (i + 1) (by simpa using hi))]

namespace Base64Decoder

theorem length_takeWhile_le {α : Type} (p : α → Bool) :
    ∀ l : List α, (l.takeWhile p).length ≤ l.length := by
  intro l
  induction l with
  | nil => simp
  | cons a t ih =>
    rw [List.takeWhile_cons]
    split
    · simpa using ih
    · simp

theorem trailingPads_le_length (s : List Char) : trailingPads s ≤ s.length := by
  rw [trailingPads]
  calc (s.reverse.takeWhile (fun c => c == '=')).length
      ≤ s.reverse.length := length_takeWhile_le _ _
    _ = s.length := s.length_reverse

theorem trailingPads_of_all (s : List Char)
    (h : s.all (fun c => c == '=') = true) : trailingPads s = s.length := by
  rw [trailingPads, List.takeWhile_eq_self_iff.mpr, s.length_reverse]
  intro c hc
  exact (List.all_eq_true.mp h) c (List.mem_reverse.mp hc)

theorem removePaddingChars_length_of_all (s : List Char)
    (h : s.all (fun c => c == '=') = true) :
    (removePaddingChars s).length = s.length := by
  rw [removePaddingChars, if_pos h]

theorem removePaddingChars_length_of_not_all (s : List Char)
    (h : ¬ s.all (fun c => c == '=') = true) :
    (removePaddingChars s).length = s.length - trailingPads s := by
  rw [removePaddingChars, if_neg h, List.length_reverse, trailingPads]
  have hsplit := List.takeWhile_append_dropWhile
    (p := fun c => c == '=') (l := s.reverse)
  have hlen : (s.reverse.takeWhile (fun c => c == '=')).length +
      (s.reverse.dropWhile (fun c => c == '=')).length = s.length := by
    rw [← List.length_append, hsplit, List.length_reverse]
  omega

end Base64Decoder

/-! ## More getD helpers -/

theorem getD_map_range (f : Nat → Nat) (n i : Nat) :
    ((List.range n).map f).getD i 0 = if i < n then f i else 0 := by
  by_cases h : i < n
  · rw [if_pos h, List.getD_eq_getElem?_getD, List.getElem?_map,
      List.getElem?_range h]
    rfl
  · rw [if_neg h, List.getD_eq_getElem?_getD, List.getElem?_map,
      List.getElem?_eq_none (by simpa using h)]
    rfl

theorem getD_replicate_zero : ∀ (n i : Nat),
    (List.replicate n (0 : Nat)).getD i 0 = 0 := by
  intro n
  induction n with
  | zero => intro i; simp
  | succ m ih =>
    intro i
    cases i with
    | zero => simp [List.replicate]
    | succ i' => simp [List.replicate, ih i']

/-! ## Claims C5, C9, C6: the decode operation -/

/-- C5: for every input string whose form after stripping non-alphabet
characters has length a multiple of 4 and carries at most 2 trailing
padding symbols, `decode` returns a buffer of length
`(stripped length / 4) * 3` minus one byte per trailing padding symbol
present. -/
theorem decode_length_mult4 (input : List Char)
    (h4 : (Base64Decoder.stripInvalid input).length % 4 = 0)
    (hp : Base64Decoder.trailingPads (Base64Decoder.stripInvalid input) ≤ 2) :
    (Base64Decoder.decode input).length =
      (Base64Decoder.stripInvalid input).length / 4 * 3 -
        Base64Decoder.trailingPads (Base64Decoder.stripInvalid input) := by
  rw [Base64Decoder.decode_length, Base64Decoder.cleanedInput]
  by_cases hall : (Base64Decoder.stripInvalid input).all
      (fun c => c == '=') = true
  · rw [Base64Decoder.removePaddingChars_length_of_all _ hall]
    have hp2 := Base64Decoder.trailingPads_of_all _ hall
    omega
  · rw [Base64Decoder.removePaddingChars_length_of_not_all _ hall]
    have hle := Base64Decoder.trailingPads_le_length
      (Base64Decoder.stripInvalid input)
    omega

/-- Witness for C5 at the concrete input `"QQ=="`: stripped length 4,
two trailing pads, output length `4 / 4 * 3 - 2 = 1`. -/
theorem decode_length_mult4_witness :
    (Base64Decoder.stripInvalid "QQ==".toList).length % 4 = 0 ∧
    Base64Decoder.trailingPads (Base64Decoder.stripInvalid "QQ==".toList) ≤ 2 ∧
    (Base64Decoder.decode "QQ==".toList).length =
      (Base64Decoder.stripInvalid "QQ==".toList).length / 4 * 3 -
        Base64Decoder.trailingPads (Base64Decoder.stripInvalid "QQ==".toList) :=
  ⟨by decide, by decide, decode_length_mult4 _ (by decide) (by decide)⟩

/-- C9: `decode` is total (it is a Lean function into `List Nat`); its
output length is always `⌊3 · cleaned length / 4⌋`, where the cleaned
input is the string the loop runs over (after the non-alphabet strip and
trailing-padding removal); reads past the end of the cleaned input
yield symbol index 0 (`charAt` gives `""`, `indexOf("")` gives `0`); and
byte writes past the end of the output buffer are silently discarded. -/
theorem decode_total_semantics :
    (∀ input : List Char, (Base64Decoder.decode input).length =
      3 * (Base64Decoder.cleanedInput input).length / 4) ∧
    (∀ (s : List Char) (j : Nat), s.length ≤ j →
      Base64Decoder.encAt s j = 0) ∧
    (∀ (buf : List Nat) (i v : Nat), buf.length ≤ i →
      setIfLt buf i v = buf) := by
  refine ⟨Base64Decoder.decode_length, ?_, ?_⟩
  · intro s j h
    simp [Base64Decoder.encAt, List.getElem?_eq_none h]
  · intro buf i v h
    rw [setIfLt, if_neg (by omega)]

/-- Witness for C9 at concrete inputs. -/
theorem decode_total_semantics_witness :
    (Base64Decoder.decode "abc".toList).length =
      3 * (Base64Decoder.cleanedInput "abc".toList).length / 4 ∧
    Base64Decoder.encAt "ab".toList 5 = 0 ∧
    setIfLt [1, 2] 7 9 = [1, 2] :=
  ⟨decode_total_semantics.1 _,
    decode_total_semantics.2.1 _ 5 (by decide),
    decode_total_semantics.2.2 _ 7 9 (by decide)⟩

/-- C6 as stated is false: per the claim, decoding first strips
non-alphabet characters only, and a group's 3rd output byte is emitted
only if the group's 3rd input symbol is not padding.  For `"QQ=B"` the
source's loop does write a 3rd byte (guarded by the 4th symbol `B`,
not by the 3rd symbol `=`), giving `[65, 0, 1]`, while the claim's
reading yields `[65, 16]`. -/
theorem decode_claimC6_cex :
    Base64Decoder.decode "QQ=B".toList = [65, 0, 1] ∧
    Base64Decoder.decodeClaimC6 "QQ=B".toList = [65, 16] ∧
    Base64Decoder.decode "QQ=B".toList ≠
      Base64Decoder.decodeClaimC6 "QQ=B".toList := by
  refine ⟨by decide, by decide, by decide⟩

/-- C6 (amended): `decode` first removes every character outside the
65-symbol alphabet AND then the trailing padding symbols, and processes
the result in groups of 4 symbols (group `i / 3` for output position
`i`) into a zero-initialised buffer of `⌊3 · cleaned length / 4⌋` bytes,
where a group's 1st byte is always written, its 2nd byte is written only
if the group's 3rd input symbol is not the padding symbol, and its 3rd
byte is written only if the group's 4th input symbol is not the padding
symbol (`writtenAt` / `byteVal` / `specByte` spell exactly this). -/
theorem decode_group_structure (input : List Char) :
    Base64Decoder.decode input =
      (List.range (3 * (Base64Decoder.cleanedInput input).length / 4)).map
        (Base64Decoder.specByte (Base64Decoder.cleanedInput input)) := by
  apply ext_getD
  · rw [Base64Decoder.decode_length, List.length_map, List.length_range]
  · intro i hi
    rw [Base64Decoder.decode_length] at hi
    have hrhs := getD_map_range
      (Base64Decoder.specByte (Base64Decoder.cleanedInput input))
      (3 * (Base64Decoder.cleanedInput input).length / 4) i
    rw [hrhs, if_pos hi]
    show (Base64Decoder.decodeLoop (Base64Decoder.cleanedInput input)
        (Base64Decoder.cleanedInput input).length 0
        (List.replicate
          (3 * (Base64Decoder.cleanedInput input).length / 4) 0)).getD i 0 =
      Base64Decoder.specByte (Base64Decoder.cleanedInput input) i
    rw [Base64Decoder.decodeLoop_getD _ _ _ _ (by omega) i,
      List.length_replicate]
    rw [Base64Decoder.specByte]
    by_cases hw : Base64Decoder.writtenAt (Base64Decoder.cleanedInput input)
        i = true
    · rw [if_pos ⟨by omega, hi, by omega, hw⟩, if_pos hw]
    · rw [if_neg (fun hcon => hw hcon.2.2.2), if_neg hw,
        getD_replicate_zero]

/-! ## Helper lemmas: JS objects -/

theorem jsLookup_cons {α : Type} (a : String × α) (l : List (String × α))
    (k : String) :
    jsLookup (a :: l) k = if a.1 == k then some a.2 else jsLookup l k := by
  by_cases h : a.1 == k <;>
    simp [jsLookup, List.find?_cons, h]

theorem jsLookup_eq_none {α : Type} {l : List (String × α)} {k : String} :
    jsLookup l k = none ↔ ∀ e ∈ l, ¬ e.1 = k := by
  simp [jsLookup, List.find?_eq_none]

theorem jsLookup_isSome_iff {α : Type} {l : List (String × α)}
    {k : String} :
    (jsLookup l k).isSome = true ↔ k ∈ l.map Prod.fst := by
  induction l with
  | nil => simp [jsLookup]
  | cons a t ih =>
    rw [jsLookup_cons]
    by_cases h : a.1 == k
    · simp [h, (beq_iff_eq.mp h).symm]
    · have hne : ¬ k = a.1 := fun hh => h (by simp [hh])
      simp [h, ih, hne]

theorem jsLookup_map_replace {α : Type} (k : String) (v : α) :
    ∀ l : List (String × α), l.any (fun e => e.1 == k) = true →
    jsLookup (l.map (fun e => if e.1 == k then (k, v) else e)) k = some v := by
  intro l
  induction l with
  | nil => intro h; simp at h
  | cons a t ih =>
    intro h
    rw [List.map_cons]
    by_cases hk : a.1 == k
    · rw [if_pos hk, jsLookup_cons]
      simp
    · rw [if_neg hk, jsLookup_cons, if_neg hk]
      apply ih
      rcases List.any_eq_true.mp h with ⟨e, he, hke⟩
      rcases List.mem_cons.mp he with rfl | he2
      · exact absurd hke hk
      · exact List.any_eq_true.mpr ⟨e, he2, hke⟩

theorem jsLookup_append_single {α : Type} (k : String) (v : α) :
    ∀ l : List (String × α), (∀ e ∈ l, ¬ e.1 = k) →
    jsLookup (l ++ [(k, v)]) k = some v := by
  intro l
  induction l with
  | nil => simp [jsLookup_cons]
  | cons a t ih =>
    intro h
    rw [List.cons_append, jsLookup_cons,
      if_neg (by simpa using h a (List.mem_cons_self a t))]
    exact ih (fun e he => h e (List.mem_cons_of_mem a he))

theorem jsLookup_jsSet_self {α : Type} (l : List (String × α)) (k : String)
    (v : α) : jsLookup (jsSet l k v) k = some v := by
  rw [jsSet]
  by_cases h : l.any (fun e => e.1 == k) = true
  · rw [if_pos h]
    exact jsLookup_map_replace k v l h
  · rw [if_neg h]
    apply jsLookup_append_single
    intro e he heq
    exact h (List.any_eq_true.mpr ⟨e, he, by simpa using heq⟩)

theorem keys_map_replace {α : Type} (k : String) (v : α)
    (l : List (String × α)) :
    (l.map (fun e => if e.1 == k then (k, v) else e)).map Prod.fst =
      l.map Prod.fst := by
  rw [List.map_map]
  apply List.map_congr_left
  intro e _
  by_cases hk : e.1 == k
  · simp only [Function.comp_apply, if_pos hk]
    exact (beq_iff_eq.mp hk).symm
  · simp only [Function.comp_apply, if_neg hk]

theorem keys_jsSet_nodup {α : Type} (l : List (String × α)) (k : String)
    (v : α) (h : (l.map Prod.fst).Nodup) :
    ((jsSet l k v).map Prod.fst).Nodup := by
  rw [jsSet]
  by_cases ha : l.any (fun e => e.1 == k) = true
  · rw [if_pos ha, keys_map_replace]
    exact h
  · rw [if_neg ha, List.map_append]
    rw [List.nodup_append]
    refine ⟨h, List.nodup_singleton _, ?_⟩
    intro x hx hx2
    rcases List.mem_map.mp hx with ⟨e, he, rfl⟩
    rcases List.mem_singleton.mp (by simpa using hx2) with rfl
    exact ha (List.any_eq_true.mpr ⟨e, he, by simp⟩)

theorem keys_jsErase {α : Type} (k : String) :
    ∀ l : List (String × α),
    (jsErase l k).map Prod.fst =
      (l.map Prod.fst).filter (fun x => !(x == k)) := by
  intro l
  induction l with
  | nil => rfl
  | cons a t ih =>
    rw [jsErase, List.filter_cons, List.map_cons, List.filter_cons]
    by_cases hk : a.1 == k
    · rw [if_neg (by simp [hk]), if_neg (by simp [hk])]
      exact ih
    · rw [if_pos (by simp [hk]), if_pos (by simp [hk]), List.map_cons]
      exact congrArg (a.1 :: ·) ih

theorem keys_jsErase_nodup {α : Type} (l : List (String × α)) (k : String)
    (h : (l.map Prod.fst).Nodup) :
    ((jsErase l k).map Prod.fst).Nodup := by
  rw [keys_jsErase]
  exact h.filter _

theorem jsErase_of_head_notin {α : Type} (k : String) (v : α)
    (rest : List (String × α)) (h : ∀ e ∈ rest, ¬ e.1 = k) :
    jsErase ((k, v) :: rest) k = rest := by
  rw [jsErase, List.filter_cons, if_neg (by simp)]
  rw [List.filter_eq_self.mpr]
  intro e he
  simpa using h e he

/-! ## Helper lemmas: AudioPlayer -/

theorem play_lookup_isSome (t : Rat) (id : String) (b : Option Entry)
    (p : AudioPlayer) :
    (jsLookup (AudioPlayer.play t id b p).sources id).isSome = true := by
  rw [AudioPlayer.play]
  by_cases h : (jsLookup p.sources id).isSome = true
  · rw [if_pos h]
    exact h
  · rw [if_neg h]
    simp [jsLookup_jsSet_self]

theorem pause_of_none (t : Rat) (id : String) (p : AudioPlayer)
    (h : jsLookup p.sources id = none) :
    AudioPlayer.pause t id p = (p, none) := by
  rw [AudioPlayer.pause]
  rw [h]

theorem pause_of_some (t : Rat) (id : String) (p : AudioPlayer)
    (v : Voice) (h : jsLookup p.sources id = some v) :
    AudioPlayer.pause t id p =
      ({ p with sources := jsErase p.sources id }, some (t + p.stopDelay)) := by
  rw [AudioPlayer.pause]
  rw [h]

theorem pauseAll_go (t sd : Rat) :
    ∀ (src : List (String × Voice)) (acc : List (String × Rat)),
    (src.map Prod.fst).Nodup →
    ((src.map Prod.fst).foldl
      (fun acc2 id =>
        let r := AudioPlayer.pause t id acc2.1
        (r.1, acc2.2 ++ (match r.2 with
          | some τ => [(id, τ)]
          | none => [])))
      (⟨src, sd⟩, acc)) =
      (⟨[], sd⟩, acc ++ src.map (fun e => (e.1, t + sd))) := by
  intro src
  induction src with
  | nil => intro acc _; simp
  | cons e rest ih =>
    intro acc h
    obtain ⟨k, v⟩ := e
    rw [List.map_cons, List.foldl_cons]
    have hnotin : ∀ e2 ∈ rest, ¬ e2.1 = k := by
      intro e2 he2 heq
      exact (List.nodup_cons.mp (by simpa using h)).1
        (heq ▸ List.mem_map_of_mem Prod.fst he2)
    have hlook : jsLookup ((k, v) :: rest) k = some v := by
      rw [jsLookup_cons]
      simp
    have hstep : AudioPlayer.pause t k ⟨(k, v) :: rest, sd⟩ =
        (⟨rest, sd⟩, some (t + sd)) := by
      rw [pause_of_some t k _ v hlook]
      simp [jsErase_of_head_notin k v rest hnotin]
    simp only [hstep]
    rw [ih (acc ++ [(k, t + sd)]) (by simpa using (List.nodup_cons.mp (by simpa using h)).2)]
    simp

theorem pauseAll_spec (t : Rat) (p : AudioPlayer)
    (h : (p.sources.map Prod.fst).Nodup) :
    AudioPlayer.pauseAll t p =
      ({ p with sources := [] },
        p.sources.map (fun e => (e.1, t + p.stopDelay))) := by
  obtain ⟨src, sd⟩ := p
  rw [AudioPlayer.pauseAll]
  simpa using pauseAll_go t sd src [] h

theorem applyPOp_nodup (p : AudioPlayer) (op : POp)
    (h : (p.sources.map Prod.fst).Nodup) :
    ((applyPOp p op).sources.map Prod.fst).Nodup := by
  cases op with
  | play t id b =>
    rw [applyPOp, AudioPlayer.play]
    by_cases hl : (jsLookup p.sources id).isSome = true
    · rw [if_pos hl]
      exact h
    · rw [if_neg hl]
      exact keys_jsSet_nodup _ _ _ h
  | pause t id =>
    rw [applyPOp]
    cases hl : jsLookup p.sources id with
    | none => rw [pause_of_none t id p hl]; exact h
    | some v =>
      rw [pause_of_some t id p v hl]
      exact keys_jsErase_nodup _ _ h
  | pauseAll t =>
    rw [applyPOp, pauseAll_spec t p h]
    simp

theorem runPOps_nodup (ops : List POp) :
    ((runPOps ops).sources.map Prod.fst).Nodup := by
  rw [runPOps]
  have haux : ∀ (l : List POp) (p : AudioPlayer),
      (p.sources.map Prod.fst).Nodup →
      ((l.foldl applyPOp p).sources.map Prod.fst).Nodup := by
    intro l
    induction l with
    | nil => intro p h; exact h
    | cons op rest ih =>
      intro p h
      rw [List.foldl_cons]
      exact ih _ (applyPOp_nodup p op h)
  exact haux ops _ (by simp [AudioPlayer.init])

/-! ## Helper lemmas: Keyboard held-key set -/

theorem keyboard_release_eq_filter (held : List String) (code : String) :
    Keyboard.release held code = held.filter (fun c => !(c == code)) := by
  rw [Keyboard.release]
  by_cases h : held.contains code
  · rw [if_pos h]
  · rw [if_neg h, List.filter_eq_self.mpr]
    intro c hc
    have hne : ¬ c = code := by
      intro rfl2
      exact h (by subst rfl2; exact List.elem_iff.mpr hc)
    simpa using hne

theorem keyboard_foldl_release : ∀ (l acc : List String),
    l.foldl Keyboard.release acc = acc.filter (fun x => !(l.contains x)) := by
  intro l
  induction l with
  | nil =>
    intro acc
    simp [List.filter_eq_self]
  | cons c rest ih =>
    intro acc
    rw [List.foldl_cons, keyboard_release_eq_filter, ih, List.filter_filter]
    apply List.filter_congr
    intro x _
    show ((!rest.contains x) && !(x == c)) = !((c :: rest).contains x)
    rw [List.contains_cons]
    cases hxc : x == c <;> cases hr : rest.contains x <;> rfl

theorem keyboard_releaseAll_eq_nil (held : List String) :
    Keyboard.releaseAll held = [] := by
  rw [Keyboard.releaseAll, keyboard_foldl_release]
  rw [List.filter_eq_nil_iff]
  intro x hx
  have hc : held.contains x = true := List.elem_iff.mpr hx
  simp [hc]
  exact hx

theorem jsLookup_isSome_eq_any {α : Type} (l : List (String × α))
    (k : String) :
    (jsLookup l k).isSome = l.any (fun e => e.1 == k) := by
  induction l with
  | nil => rfl
  | cons a t ih =>
    rw [jsLookup_cons, List.any_cons]
    by_cases h : a.1 == k <;> simp [h, ih]

theorem jsLookup_jsErase_self {α : Type} (l : List (String × α))
    (k : String) : jsLookup (jsErase l k) k = none := by
  rw [jsLookup_eq_none]
  intro e he heq
  have h2 := (List.mem_filter.mp he).2
  simp [heq] at h2

/-! ## Claims C4, C7: the voice manager -/

/-- C4: at most one live voice exists per note identifier: a second
`play` for the same note with no intervening `pause` is a no-op; from a
well-formed player one `play` leaves exactly one active voice for that
note; and no sequence of play / pause / pauseAll operations from a fresh
player ever yields two active voices for one note. -/
theorem single_voice_per_note :
    (∀ (p : AudioPlayer) (t1 t2 : Rat) (id : String) (b1 b2 : Option Entry),
      AudioPlayer.play t2 id b2 (AudioPlayer.play t1 id b1 p) =
        AudioPlayer.play t1 id b1 p) ∧
    (∀ (p : AudioPlayer) (t : Rat) (id : String) (b : Option Entry),
      (p.sources.map Prod.fst).Nodup →
      ((AudioPlayer.play t id b p).sources.map Prod.fst).count id = 1) ∧
    (∀ (ops : List POp) (id : String),
      ((runPOps ops).sources.map Prod.fst).count id ≤ 1) := by
  refine ⟨?_, ?_, ?_⟩
  · intro p t1 t2 id b1 b2
    conv_lhs => rw [AudioPlayer.play]
    rw [if_pos (play_lookup_isSome t1 id b1 p)]
  · intro p t id b hnd
    rw [AudioPlayer.play]
    by_cases hl : (jsLookup p.sources id).isSome = true
    · rw [if_pos hl]
      have hmem : id ∈ p.sources.map Prod.fst := jsLookup_isSome_iff.mp hl
      have h1 := (List.nodup_iff_count_le_one.mp hnd) id
      have h2 : 0 < (p.sources.map Prod.fst).count id :=
        List.count_pos_iff.mpr hmem
      omega
    · rw [if_neg hl, jsSet,
        if_neg (fun hcon => hl (by rw [jsLookup_isSome_eq_any]; exact hcon)),
        List.map_append, List.count_append,
        List.count_eq_zero.mpr (fun hmem => hl (jsLookup_isSome_iff.mpr hmem))]
      simp
  · intro ops id
    exact List.nodup_iff_count_le_one.mp (runPOps_nodup ops) id

/-- Witness for C4: one `play` on the fresh (well-formed) player leaves
exactly one voice for the note. -/
theorem single_voice_per_note_witness :
    (((AudioPlayer.init none).sources.map Prod.fst).Nodup) ∧
    ((AudioPlayer.play 0 "C4" none
      (AudioPlayer.init none)).sources.map Prod.fst).count "C4" = 1 :=
  ⟨by simp [AudioPlayer.init],
    single_voice_per_note.2.1 _ 0 "C4" none (by simp [AudioPlayer.init])⟩

/-- C7: `pause` on a note with no active voice is a no-op (no state
change, nothing scheduled); on an active voice it schedules the stop at
`now + stopDelay` and removes the voice immediately, so the note has no
active voice afterwards and a subsequent `play` creates a fresh voice;
the default `stopDelay` is `0.3`. -/
theorem pause_semantics :
    (∀ (p : AudioPlayer) (t : Rat) (id : String),
      jsLookup p.sources id = none → AudioPlayer.pause t id p = (p, none)) ∧
    (∀ (p : AudioPlayer) (t : Rat) (id : String) (v : Voice),
      jsLookup p.sources id = some v →
      AudioPlayer.pause t id p =
        ({ p with sources := jsErase p.sources id },
          some (t + p.stopDelay)) ∧
      jsLookup (AudioPlayer.pause t id p).1.sources id = none) ∧
    (AudioPlayer.init none).stopDelay = 3 / 10 ∧
    (∀ (p : AudioPlayer) (t t' : Rat) (id : String) (v : Voice)
      (b : Option Entry), jsLookup p.sources id = some v →
      jsLookup ((AudioPlayer.play t' id b
        (AudioPlayer.pause t id p).1).sources) id =
        some { buffer := b, started := t' }) := by
  refine ⟨fun p t id h => pause_of_none t id p h, ?_, rfl, ?_⟩
  · intro p t id v h
    refine ⟨pause_of_some t id p v h, ?_⟩
    rw [pause_of_some t id p v h]
    exact jsLookup_jsErase_self p.sources id
  · intro p t t' id v b h
    rw [pause_of_some t id p v h, AudioPlayer.play,
      if_neg (by rw [jsLookup_jsErase_self]; simp)]
    exact jsLookup_jsSet_self _ _ _

/-- Witness for C7 at a concrete one-voice player. -/
theorem pause_semantics_witness :
    AudioPlayer.pause 0 "D4" ⟨[("C4", ⟨none, 0⟩)], 1⟩ =
      (⟨[("C4", ⟨none, 0⟩)], 1⟩, none) ∧
    jsLookup (AudioPlayer.pause 0 "C4"
      ⟨[("C4", ⟨none, 0⟩)], 1⟩).1.sources "C4" = none ∧
    jsLookup ((AudioPlayer.play 2 "C4" none
      (AudioPlayer.pause 0 "C4" ⟨[("C4", ⟨none, 0⟩)], 1⟩).1).sources)
      "C4" = some ⟨none, 2⟩ :=
  ⟨pause_semantics.1 _ 0 "D4" (by decide),
    (pause_semantics.2.1 _ 0 "C4" ⟨none, 0⟩ (by decide)).2,
    pause_semantics.2.2.2 _ 0 2 "C4" ⟨none, 0⟩ none (by decide)⟩

/-! ## Claim C8: visibility loss -/

/-- C8: when the document becomes hidden while `RUNNING`, every active
voice is stopped with the usual scheduled release (`now + stopDelay` for
each) and every held key is released, leaving both the active-voice set
and the held-key set empty; in any other state, or when the document is
visible, the visibility change has no effect. -/
theorem visibility_hidden_clears_state :
    (∀ (st : AppState) (t : Rat), st.mode = .running →
      (st.player.sources.map Prod.fst).Nodup →
      (App.onVisibilityChange t false st).1.player.sources = [] ∧
      (App.onVisibilityChange t false st).1.held = [] ∧
      (App.onVisibilityChange t false st).2 =
        st.player.sources.map (fun e => (e.1, t + st.player.stopDelay))) ∧
    (∀ (st : AppState) (t : Rat) (visible : Bool), st.mode ≠ .running →
      App.onVisibilityChange t visible st = (st, [])) ∧
    (∀ (st : AppState) (t : Rat),
      App.onVisibilityChange t true st = (st, [])) := by
  refine ⟨?_, ?_, ?_⟩
  · intro st t hm hnd
    rw [App.onVisibilityChange, if_neg (by simp [hm]),
      if_neg (by simp)]
    simp only [pauseAll_spec t st.player hnd]
    exact ⟨trivial, keyboard_releaseAll_eq_nil st.held, trivial⟩
  · intro st t v hm
    rw [App.onVisibilityChange, if_pos hm]
  · intro st t
    rw [App.onVisibilityChange]
    by_cases hm : st.mode ≠ .running
    · rw [if_pos hm]
    · rw [if_neg hm, if_pos rfl]

/-- Witness for C8 at a concrete running state with one held key and one
active voice. -/
theorem visibility_hidden_clears_state_witness :
    (App.onVisibilityChange 0 false
      ⟨.running, ["KeyA"], ⟨[("C4", ⟨none, 0⟩)], 1⟩,
        ⟨true, []⟩, [("KeyA", "C4")], []⟩).1.player.sources = [] ∧
    (App.onVisibilityChange 0 false
      ⟨.running, ["KeyA"], ⟨[("C4", ⟨none, 0⟩)], 1⟩,
        ⟨true, []⟩, [("KeyA", "C4")], []⟩).1.held = [] ∧
    (App.onVisibilityChange 0 false
      ⟨.running, ["KeyA"], ⟨[("C4", ⟨none, 0⟩)], 1⟩,
        ⟨true, []⟩, [("KeyA", "C4")], []⟩).2 = [("C4", 1)] :=
  ⟨(visibility_hidden_clears_state.1 _ 0 rfl (by simp)).1,
    (visibility_hidden_clears_state.1 _ 0 rfl (by simp)).2.1,
    by
      have h := (visibility_hidden_clears_state.1
        ⟨.running, ["KeyA"], ⟨[("C4", ⟨none, 0⟩)], 1⟩,
          ⟨true, []⟩, [("KeyA", "C4")], []⟩ 0 rfl (by simp)).2.2
      simpa using h⟩

/-! ## Claim C10: logger switch as a frame condition -/

theorem keyboard_press_contains (held : List String) (code : String) :
    (Keyboard.press held code).contains code = true := by
  rw [Keyboard.press]
  by_cases h : held.contains code
  · rw [if_pos h]
    exact h
  · rw [if_neg h]
    simp

/-- C10: with the logger disabled, every log-mutating operation (insert,
space, return, delete, clear) leaves the logger state unchanged; in
particular a mapped, non-repeat key-down in `RUNNING` still starts the
voice and marks the key pressed but appends no log entry. -/
theorem logger_disabled_frame :
    (∀ (lg : Logger) (tok : String), lg.enabled = false →
      (lg.insert tok).1 = lg ∧ (lg.insert tok).2 = false ∧
      lg.space = lg ∧ lg.ret = lg ∧ lg.delete = lg ∧ lg.clear = lg) ∧
    (∀ (cfg : AppCfg) (st : AppState) (t : Rat) (code note : String),
      st.mode = .running → st.logger.enabled = false →
      code ≠ "ArrowRight" → code ≠ "ArrowDown" → code ≠ "ArrowLeft" →
      jsLookup st.codesNotes code = some note →
      (App.onKeyDown cfg t code false st).1.logger = st.logger ∧
      (App.onKeyDown cfg t code false st).2 = [Ev.play note] ∧
      (App.onKeyDown cfg t code false st).1.held.contains code = true ∧
      (App.onKeyDown cfg t code false st).1.player =
        AudioPlayer.play t note (jsLookup st.bank note) st.player) := by
  refine ⟨?_, ?_⟩
  · intro lg tok h
    refine ⟨?_, ?_, ?_, ?_, ?_, ?_⟩ <;>
      simp [Logger.insert, Logger.space, Logger.ret, Logger.delete,
        Logger.clear, h]
  · intro cfg st t code note hm he h1 h2 h3 hlook
    rw [App.onKeyDown, if_neg (by simp [hm]), if_neg (by simp [hm]),
      if_neg h1, if_neg h2, if_neg h3, if_neg (by simp)]
    simp only [hlook]
    refine ⟨?_, ?_, ?_, trivial⟩
    · simp [Logger.insert, he]
    · simp [Logger.insert, he]
    · exact keyboard_press_contains st.held code

/-- Witness for C10 at a concrete disabled-logger state. -/
theorem logger_disabled_frame_witness :
    ((⟨false, ["x"]⟩ : Logger).insert "y").1 = (⟨false, ["x"]⟩ : Logger) ∧
    (App.onKeyDown ⟨fun _ => "1"⟩ 0 "KeyA" false
      ⟨.running, [], ⟨[], 1⟩, ⟨false, []⟩, [("KeyA", "C4")], []⟩).2 =
      [Ev.play "C4"] :=
  ⟨(logger_disabled_frame.1 _ "y" rfl).1,
    (logger_disabled_frame.2 ⟨fun _ => "1"⟩ _ 0 "KeyA" "C4" rfl rfl
      (by decide) (by decide) (by decide) (by decide)).2.1⟩

/-! ## Claim C3: key-event routing -/

/-- C3 as stated is false: it asserts that in `RUNNING` any key-down
whose code is unmapped causes no state change at all, but the arrow-key
cases run before the unmapped-code filter: `ArrowRight` (unmapped in the
mapping below) appends a space token to the log. -/
theorem keydown_ignore_cex :
    jsLookup ([("KeyA", "C4")] : List (String × String)) "ArrowRight" =
      none ∧
    (App.onKeyDown ⟨fun _ => "1"⟩ 0 "ArrowRight" false
      ⟨.running, [], ⟨[], 1⟩, ⟨true, []⟩, [("KeyA", "C4")],
        []⟩).1.logger.tokens = [" "] ∧
    (App.onKeyDown ⟨fun _ => "1"⟩ 0 "ArrowRight" false
      ⟨.running, [], ⟨[], 1⟩, ⟨true, []⟩, [("KeyA", "C4")], []⟩).1 ≠
      ⟨.running, [], ⟨[], 1⟩, ⟨true, []⟩, [("KeyA", "C4")], []⟩ :=
  ⟨by decide, by decide, by decide⟩

/-- C3 (amended): in `RUNNING`, for key-down(code), key-down(code,
repeat), key-up(code) with `code` mapped to a note and not one of the
three arrow keys, and the logger enabled, the router performs exactly
one voice start and one voice stop for the note and appends exactly one
log entry; key events whose code is unmapped or whose repeat flag is
set cause no state change - EXCEPT for key-downs of `ArrowRight`,
`ArrowDown` and `ArrowLeft`, which drive logger operations before the
repeat/unmapped filter (the counterexample); key-ups are ignored without
exception under the filter. -/
theorem key_sequence_routing :
    (∀ (cfg : AppCfg) (st : AppState) (code note : String) (t1 t2 t3 : Rat),
      st.mode = .running → st.logger.enabled = true →
      code ≠ "ArrowRight" → code ≠ "ArrowDown" → code ≠ "ArrowLeft" →
      jsLookup st.codesNotes code = some note →
      ((App.onKeyDown cfg t1 code false st).2 ++
        (App.onKeyDown cfg t2 code true
          (App.onKeyDown cfg t1 code false st).1).2 ++
        (App.onKeyUp t3 code false
          (App.onKeyDown cfg t2 code true
            (App.onKeyDown cfg t1 code false st).1).1).2).count
          (Ev.play note) = 1 ∧
      ((App.onKeyDown cfg t1 code false st).2 ++
        (App.onKeyDown cfg t2 code true
          (App.onKeyDown cfg t1 code false st).1).2 ++
        (App.onKeyUp t3 code false
          (App.onKeyDown cfg t2 code true
            (App.onKeyDown cfg t1 code false st).1).1).2).count
          (Ev.pause note) = 1 ∧
      (((App.onKeyDown cfg t1 code false st).2 ++
        (App.onKeyDown cfg t2 code true
          (App.onKeyDown cfg t1 code false st).1).2 ++
        (App.onKeyUp t3 code false
          (App.onKeyDown cfg t2 code true
            (App.onKeyDown cfg t1 code false st).1).1).2).filter
          Ev.isLogAppend).length = 1 ∧
      (App.onKeyUp t3 code false
        (App.onKeyDown cfg t2 code true
          (App.onKeyDown cfg t1 code false st).1).1).1.logger.tokens =
        st.logger.tokens ++ [cfg.noteTok note]) ∧
    (∀ (cfg : AppCfg) (st : AppState) (code : String) (rpt : Bool)
      (t : Rat), st.mode = .running →
      code ≠ "ArrowRight" → code ≠ "ArrowDown" → code ≠ "ArrowLeft" →
      (rpt = true ∨ jsLookup st.codesNotes code = none) →
      App.onKeyDown cfg t code rpt st = (st, [])) ∧
    (∀ (st : AppState) (code : String) (rpt : Bool) (t : Rat),
      st.mode = .running →
      (rpt = true ∨ jsLookup st.codesNotes code = none) →
      App.onKeyUp t code rpt st = (st, [])) := by
  refine ⟨?_, ?_, ?_⟩
  · intro cfg st code note t1 t2 t3 hm hen h1 h2 h3 hlook
    have e1 : App.onKeyDown cfg t1 code false st =
        ({ st with
            held := Keyboard.press st.held code,
            logger := { st.logger with
              tokens := st.logger.tokens ++ [cfg.noteTok note] },
            player := AudioPlayer.play t1 note (jsLookup st.bank note)
              st.player },
          [Ev.logAppend (cfg.noteTok note), Ev.play note]) := by
      rw [App.onKeyDown, if_neg (by simp [hm]), if_neg (by simp [hm]),
        if_neg h1, if_neg h2, if_neg h3, if_neg (by simp)]
      simp only [hlook]
      simp [Logger.insert, hen]
    rw [e1]
    have e2 : App.onKeyDown cfg t2 code true
        ({ st with
            held := Keyboard.press st.held code,
            logger := { st.logger with
              tokens := st.logger.tokens ++ [cfg.noteTok note] },
            player := AudioPlayer.play t1 note (jsLookup st.bank note)
              st.player } : AppState) =
        ({ st with
            held := Keyboard.press st.held code,
            logger := { st.logger with
              tokens := st.logger.tokens ++ [cfg.noteTok note] },
            player := AudioPlayer.play t1 note (jsLookup st.bank note)
              st.player }, []) := by
      rw [App.onKeyDown, if_neg (by simp [hm]), if_neg (by simp [hm]),
        if_neg h1, if_neg h2, if_neg h3, if_pos rfl]
    rw [e2]
    have e3 : App.onKeyUp t3 code false
        ({ st with
            held := Keyboard.press st.held code,
            logger := { st.logger with
              tokens := st.logger.tokens ++ [cfg.noteTok note] },
            player := AudioPlayer.play t1 note (jsLookup st.bank note)
              st.player } : AppState) =
        ({ st with
            held := Keyboard.release (Keyboard.press st.held code) code,
            logger := { st.logger with
              tokens := st.logger.tokens ++ [cfg.noteTok note] },
            player := (AudioPlayer.pause t3 note
              (AudioPlayer.play t1 note (jsLookup st.bank note)
                st.player)).1 },
          [Ev.pause note]) := by
      rw [App.onKeyUp, if_neg (by simp [hm]), if_neg (by simp)]
      simp only [hlook]
    rw [e3]
    refine ⟨?_, ?_, ?_, rfl⟩
    · simp [List.count_cons, List.count_append]
    · simp [List.count_cons, List.count_append]
    · simp [Ev.isLogAppend]
  · intro cfg st code rpt t hm h1 h2 h3 hig
    rw [App.onKeyDown, if_neg (by simp [hm]), if_neg (by simp [hm]),
      if_neg h1, if_neg h2, if_neg h3]
    rcases hig with rfl | hnone
    · rw [if_pos rfl]
    · cases rpt
      · rw [if_neg (by simp)]
        simp [hnone]
      · rw [if_pos rfl]
  · intro st code rpt t hm hig
    rw [App.onKeyUp, if_neg (by simp [hm])]
    rcases hig with rfl | hnone
    · rw [if_pos rfl]
    · cases rpt
      · rw [if_neg (by simp)]
        simp [hnone]
      · rw [if_pos rfl]

/-- Witness for C3 (amended) at a concrete running state with
`KeyA ↦ C4`. -/
theorem key_sequence_routing_witness :
    ((App.onKeyDown ⟨fun _ => "1"⟩ 0 "KeyA" false
        ⟨.running, [], ⟨[], 1⟩, ⟨true, []⟩, [("KeyA", "C4")], []⟩).2 ++
      (App.onKeyDown ⟨fun _ => "1"⟩ 1 "KeyA" true
        (App.onKeyDown ⟨fun _ => "1"⟩ 0 "KeyA" false
          ⟨.running, [], ⟨[], 1⟩, ⟨true, []⟩, [("KeyA", "C4")],
            []⟩).1).2 ++
      (App.onKeyUp 2 "KeyA" false
        (App.onKeyDown ⟨fun _ => "1"⟩ 1 "KeyA" true
          (App.onKeyDown ⟨fun _ => "1"⟩ 0 "KeyA" false
            ⟨.running, [], ⟨[], 1⟩, ⟨true, []⟩, [("KeyA", "C4")],
              []⟩).1).1).2).count (Ev.play "C4") = 1 ∧
    App.onKeyUp 0 "KeyB" false
      ⟨.running, [], ⟨[], 1⟩, ⟨true, []⟩, [("KeyA", "C4")], []⟩ =
      (⟨.running, [], ⟨[], 1⟩, ⟨true, []⟩, [("KeyA", "C4")], []⟩, []) :=
  ⟨(key_sequence_routing.1 ⟨fun _ => "1"⟩ _ "KeyA" "C4" 0 1 2 rfl rfl
      (by decide) (by decide) (by decide) (by decide)).1,
    key_sequence_routing.2.2 _ "KeyB" false 0 rfl (Or.inr (by decide))⟩

/-! ## Claims C1, C2: the asset-loading pipeline -/

theorem countStr_init (m : List (String × List Char)) :
    countStr (m.map (fun e => (e.1, Entry.str e.2))) = m.length := by
  induction m with
  | nil => rfl
  | cons e rest ih =>
    rw [List.map_cons, countStr, List.filter_cons]
    rw [if_pos (by rfl)]
    rw [List.length_cons]
    rw [show (List.filter _ (rest.map (fun e => (e.1, Entry.str e.2)))).length
        = countStr (rest.map (fun e => (e.1, Entry.str e.2))) from rfl, ih]
    rfl

/-- C1 is violated by the code: `loadAsync` pushes the current value of
`this.json[k]` - the encoded string - into the array handed to
`Promise.all`, not the decode promise chain.  First part: for EVERY
manifest, the very first event-loop step (a microtask, run before any
`setTimeout` decode macrotask) resolves the aggregate load while all
`m.length` entries are still encoded strings.  Second part: on the
spec's own two-entry manifest the trace is `loadResolved` (with 2
entries still encoded) strictly before the two decode completions; the
entries do decode eventually, after the load already resolved. -/
theorem loadAsync_resolves_before_decode :
    (∀ m : List (String × List Char),
      (stepLoad (initLoad m)).loadResolved = true ∧
      (stepLoad (initLoad m)).trace = [LEv.loadResolved m.length] ∧
      countStr (stepLoad (initLoad m)).json = m.length) ∧
    (runLoad 10 (initLoad
        [("C4", ("data:audio/ogg;base64,AAAAAAAAAAAAAAAA").toList),
         ("D4", ("data:audio/ogg;base64,AAAAAAAAAAAAAAAA").toList)])).trace =
      [LEv.loadResolved 2, LEv.assigned "C4", LEv.assigned "D4"] ∧
    jsLookup (runLoad 10 (initLoad
        [("C4", ("data:audio/ogg;base64,AAAAAAAAAAAAAAAA").toList),
         ("D4", ("data:audio/ogg;base64,AAAAAAAAAAAAAAAA").toList)])).json
      "C4" = some (Entry.buf (List.replicate 12 0)) ∧
    jsLookup (runLoad 10 (initLoad
        [("C4", ("data:audio/ogg;base64,AAAAAAAAAAAAAAAA").toList),
         ("D4", ("data:audio/ogg;base64,AAAAAAAAAAAAAAAA").toList)])).json
      "D4" = some (Entry.buf (List.replicate 12 0)) := by
  refine ⟨?_, by decide, by decide, by decide⟩
  intro m
  refine ⟨rfl, ?_, ?_⟩
  · show ([] : List LEv) ++
      [LEv.loadResolved (countStr (m.map (fun e => (e.1, Entry.str e.2))))] =
      [LEv.loadResolved m.length]
    rw [countStr_init]
    rfl
  · show countStr (m.map (fun e => (e.1, Entry.str e.2))) = m.length
    exact countStr_init m

/-- C2 is violated by the code: on a manifest fetch failing with HTTP
404, `fetchJSON` does reject with the descriptive error, but the
trailing `.catch` of `loadAsync` handles the rejection (recording the
error and calling `onError`), so the promise `loadAsync` returns is
FULFILLED; `Promise.all` in `App.start` therefore fulfills and the
`then` callback sets the state to `RUNNING` - for every combination of
fetch outcomes, the instrument ends `RUNNING`, never stuck in
`LOADING`. -/
theorem fetch_failure_still_reaches_running :
    (AudioAsset.loadAsync (.httpError 404)).error =
      some "Unexpected HTTP status code 404" ∧
    (AudioAsset.loadAsync (.httpError 404)).onErrorCalled = true ∧
    (AudioAsset.loadAsync (.httpError 404)).onLoadCalled = false ∧
    (AudioAsset.loadAsync (.httpError 404)).promiseRejected = false ∧
    (∀ (f : FetchOutcome) (fs : List FetchOutcome),
      App.startFinalMode f fs = .running) := by
  have hall : ∀ g : FetchOutcome,
      (AudioAsset.loadAsync g).promiseRejected = false := by
    intro g
    rw [AudioAsset.loadAsync]
    cases h : fetchJSON g <;> simp
  refine ⟨by decide, rfl, rfl, rfl, ?_⟩
  intro f fs
  rw [App.startFinalMode, if_neg]
  rintro (hc | hc)
  · rw [hall f] at hc
    exact Bool.false_ne_true hc
  · rcases List.any_eq_true.mp hc with ⟨r, hr, hrej⟩
    rcases List.mem_map.mp hr with ⟨g, _, rfl⟩
    rw [hall g] at hrej
    exact Bool.false_ne_true hrej
